import Mathlib

/-!
Verification of the DOM-pruning engine of DomTools (src/dom_pruner.py).

The engine works on parsed JSON trees: nested mappings with string keys,
sequences, and scalars (string, number, boolean, null).  We embed such
trees as the inductive type `DomPruner.Tree`, the classification function
`should_prune`, the recursive rewrite `prune_object`, and the fixed-point
driver `run_passes` as Lean functions translated from the Python source.
Python `None` plays a double role in the source: it is both the JSON null
scalar and the "absent" result of prune_object; the embedding keeps that
conflation, using `Tree.null` for both.

Numbers are embedded as integers: the source treats every int and float
identically (unconditionally prunable), so no claim depends on the
distinction.  Regular expressions from the source rule table are embedded
as decidable character-list predicates with the same anchored semantics
(re.match anchors at the start; every css value pattern also ends in a
dollar anchor, and the strings these patterns are applied to are
whitespace-free tokens, for which the dollar anchor means end of string).
-/

namespace DomPruner

/-- A parsed JSON value: the tree shape the pruning engine rewrites.
Mappings keep insertion order, as Python dicts do; keys of a mapping
originating from JSON are unique. -/
inductive Tree where
  | null : Tree
  | bool (b : Bool) : Tree
  | int (n : Int) : Tree
  | str (s : String) : Tree
  | list (xs : List Tree) : Tree
  | dict (kvs : List (String × Tree)) : Tree
  deriving Repr

mutual
/-- Structural equality of trees (Python == on parsed JSON values). -/
def treeEq (a b : Tree) : Bool :=
  match a, b with
  | .null, .null => true
  | .bool x, .bool y => x == y
  | .int x, .int y => x == y
  | .str x, .str y => x == y
  | .list xs, .list ys => treeEqL xs ys
  | .dict xs, .dict ys => treeEqD xs ys
  | _, _ => false

/-- Structural equality of tree lists. -/
def treeEqL (xs ys : List Tree) : Bool :=
  match xs, ys with
  | [], [] => true
  | x :: xs, y :: ys => treeEq x y && treeEqL xs ys
  | _, _ => false

/-- Structural equality of key/value entry lists. -/
def treeEqD (xs ys : List (String × Tree)) : Bool :=
  match xs, ys with
  | [], [] => true
  | (k, v) :: xs, (k2, v2) :: ys => k == k2 && treeEq v v2 && treeEqD xs ys
  | _, _ => false
end

mutual
theorem treeEq_iff (a b : Tree) : treeEq a b = true ↔ a = b := by
  cases a <;> cases b <;>
    simp [treeEq] <;>
    first
      | rfl
      | exact treeEqL_iff _ _
      | exact treeEqD_iff _ _

theorem treeEqL_iff (xs ys : List Tree) : treeEqL xs ys = true ↔ xs = ys := by
  cases xs with
  | nil => cases ys <;> simp [treeEqL]
  | cons x xs =>
    cases ys with
    | nil => simp [treeEqL]
    | cons y ys =>
      simp [treeEqL, treeEq_iff x y, treeEqL_iff xs ys]

theorem treeEqD_iff (xs ys : List (String × Tree)) : treeEqD xs ys = true ↔ xs = ys := by
  cases xs with
  | nil => cases ys <;> simp [treeEqD]
  | cons x xs =>
    cases ys with
    | nil => simp [treeEqD]
    | cons y ys =>
      obtain ⟨k, v⟩ := x
      obtain ⟨k2, v2⟩ := y
      simp [treeEqD, treeEq_iff v v2, treeEqD_iff xs ys]
end

instance instDecEqTree : DecidableEq Tree :=
  fun a b => decidable_of_iff (treeEq a b = true) (treeEq_iff a b)

/-! ### Python string primitives used by the source -/

/-- Whitespace in the sense of Python str.strip and str.split with no
arguments (the characters the CPython unicode whitespace table marks). -/
def pyIsSpace (c : Char) : Bool :=
  c.toNat ∈ ([0x09, 0x0a, 0x0b, 0x0c, 0x0d, 0x1c, 0x1d, 0x1e, 0x1f, 0x20,
    0x85, 0xa0, 0x1680, 0x2000, 0x2001, 0x2002, 0x2003, 0x2004, 0x2005,
    0x2006, 0x2007, 0x2008, 0x2009, 0x200a, 0x2028, 0x2029, 0x202f,
    0x205f, 0x3000] : List Nat)

/-- Python str.strip() on a character list: drop leading and trailing
whitespace. -/
def pyStripL (cs : List Char) : List Char :=
  ((cs.dropWhile pyIsSpace).reverse.dropWhile pyIsSpace).reverse

/-- Python str.strip(). -/
def pyStrip (s : String) : String :=
  String.mk (pyStripL s.data)

/-- Python str.lower() restricted to ASCII letters, which is all the
source compares lowered strings against ("null" and "undefined"). -/
def pyLowerChar (c : Char) : Char :=
  if 'A' ≤ c ∧ c ≤ 'Z' then Char.ofNat (c.toNat + 32) else c

/-- Python str.lower(). -/
def pyLower (s : String) : String :=
  String.mk (s.data.map pyLowerChar)

/-- Accumulator pass of Python str.split() with no separator: split on
runs of whitespace, with no empty tokens. -/
def pySplitAux : List Char → List Char → List (List Char)
  | [], acc => if acc = [] then [] else [acc.reverse]
  | c :: rest, acc =>
      if pyIsSpace c then
        if acc = [] then pySplitAux rest []
        else acc.reverse :: pySplitAux rest []
      else pySplitAux rest (c :: acc)

/-- Python str.split() with no separator, yielding tokens as character
lists. -/
def pySplit (s : String) : List (List Char) :=
  pySplitAux s.data []

/-! ### The rule table constants of the source -/

/-- DOM_TEXT_VALUES: common DOM text node values to prune (compared
against the stripped string). -/
def DOM_TEXT_VALUES : List String :=
  ["#text", "#comment", "fulfilled", "[object Object]",
   "UnserializableObject", "\n", "LINK", "default"]

/-- REMOVE_KEYS: keys dropped from every mapping unconditionally. -/
def REMOVE_KEYS : List String :=
  ["height", "width", "constructor", "fill", "viewBox"]

/-- CSS_PATTERNS keys: key names dropped from every mapping as
CSS-association keys (the css_keys category the constructor installs). -/
def css_keys : List String :=
  ["className", "style", "css", "tailwind"]

/-! ### The compiled css value patterns

The seven regexes of CSS_PATTERNS values, embedded as decidable
predicates on tokens (whitespace-free character lists). -/

/-- Lowercase ASCII letter, the character class of the regex [a-z]. -/
def isLowerAZ (c : Char) : Bool :=
  'a' ≤ c ∧ c ≤ 'z'

/-- Character class of the regex fragment [0-9\.]. -/
def isDigitDot (c : Char) : Bool :=
  c.isDigit || c = '.'

/-- Matches the regex fragment -[0-9\.]+$ : a dash then one or more
digits or dots, to the end. -/
def dashNumTail (cs : List Char) : Bool :=
  match cs with
  | '-' :: rest => !rest.isEmpty && rest.all isDigitDot
  | _ => false

mutual
/-- Matches the regex fragment (-[a-z]+)*$ : zero or more groups of a
dash followed by one or more lowercase letters, to the end. -/
def dashWordsStart : List Char → Bool
  | [] => true
  | '-' :: rest => dashWordsLetter rest
  | _ => false

/-- Continuation of dashWordsStart after a dash: at least one lowercase
letter must follow. -/
def dashWordsLetter : List Char → Bool
  | [] => false
  | c :: rest => isLowerAZ c && dashWordsMore rest

/-- Continuation of dashWordsLetter after one letter: more letters, a
new dash group, or the end. -/
def dashWordsMore : List Char → Bool
  | [] => true
  | '-' :: rest => dashWordsLetter rest
  | c :: rest => isLowerAZ c && dashWordsMore rest
end

/-- Matches ^(mx|my|px|py|m|p|gap)-[0-9\.]+$. -/
def cssPatSpacingPrefix (t : List Char) : Bool :=
  (["mx", "my", "px", "py", "m", "p", "gap"] : List String).any fun a =>
    t.take a.data.length == a.data && dashNumTail (t.drop a.data.length)

/-- Matches ^flex(-[a-z]+)*$. -/
def cssPatFlex (t : List Char) : Bool :=
  t.take 4 == "flex".data && dashWordsStart (t.drop 4)

/-- Matches ^grid(-[a-z]+)*$. -/
def cssPatGrid (t : List Char) : Bool :=
  t.take 4 == "grid".data && dashWordsStart (t.drop 4)

/-- Matches ^(block|inline|hidden)$. -/
def cssPatDisplay (t : List Char) : Bool :=
  t == "block".data || t == "inline".data || t == "hidden".data

/-- Matches ^(mb|mt|ml|mr)-[0-9\.]+$. -/
def cssPatMargin (t : List Char) : Bool :=
  (["mb", "mt", "ml", "mr"] : List String).any fun a =>
    t.take a.data.length == a.data && dashNumTail (t.drop a.data.length)

/-- Matches ^space-(x|y)-[0-9\.]+$. -/
def cssPatSpace (t : List Char) : Bool :=
  t.take 6 == "space-".data &&
    match t.drop 6 with
    | c :: rest => (c = 'x' || c = 'y') && dashNumTail rest
    | [] => false

/-- Matches ^gap-[0-9\.]+$. -/
def cssPatGap (t : List Char) : Bool :=
  t.take 3 == "gap".data && dashNumTail (t.drop 3)

/-- Disjunction over the compiled css value patterns: the embedding of
any(pattern.match(cls) for pattern in compiled_patterns css_values). -/
def css_values_match (t : List Char) : Bool :=
  cssPatSpacingPrefix t || cssPatFlex t || cssPatGrid t || cssPatDisplay t ||
    cssPatMargin t || cssPatSpace t || cssPatGap t

/-! ### Classification: DOMPruner.should_prune -/

/-- DOMPruner.should_prune(value, key): true when the node should
disappear from its parent.  The optional key is None except in the
mapping collapse check of prune_object. -/
def should_prune (value : Tree) (key : Option String) : Bool :=
  if key = some "nodeName" then false
  else if value = .null ∨ value = .list [] ∨ value = .dict [] ∨ value = .str "" then true
  else
    match value with
    | .str s =>
        let v := pyStrip s
        if DOM_TEXT_VALUES.contains v then true
        else if pyLower v = "null" ∨ pyLower v = "undefined" then true
        else if v.data.contains ' ' then (pySplit v).all css_values_match
        else false
    | .bool _ => true
    | .int _ => true
    | _ => false

/-! ### Rewrite: DOMPruner.prune_object -/

mutual
/-- DOMPruner.prune_object(obj): one recursive rewrite of a node.  The
returned Tree.null doubles as the Python None the source uses both for
the JSON null scalar and for the absent outcome. -/
def prune_object (obj : Tree) : Tree :=
  match obj with
  | .dict kvs =>
      if kvs.map Prod.fst = ["nodeName"] then .null
      else
        let pruned := pruneDictEntries kvs
        if pruned = [] ∨ pruned.all (fun kv => should_prune kv.2 (some kv.1)) then .null
        else .dict pruned
  | .list xs =>
      let pruned := pruneListElems xs
      if pruned = [] ∨ pruned.all (fun item => should_prune item none) then .null
      else .list pruned
  | _ => if should_prune obj none then .null else obj

/-- Entry loop of the mapping branch of prune_object: skip keys in
REMOVE_KEYS and css_keys, recursively prune each remaining value, and
keep the entry when the pruned value is not None. -/
def pruneDictEntries : List (String × Tree) → List (String × Tree)
  | [] => []
  | (k, v) :: rest =>
      if REMOVE_KEYS.contains k then pruneDictEntries rest
      else if css_keys.contains k then pruneDictEntries rest
      else
        let pv := prune_object v
        if pv = .null then pruneDictEntries rest
        else (k, pv) :: pruneDictEntries rest

/-- Element comprehension of the sequence branch of prune_object: keep
the elements not satisfying should_prune before recursion, mapping each
kept element through prune_object. -/
def pruneListElems : List Tree → List Tree
  | [] => []
  | x :: rest =>
      if should_prune x none then pruneListElems rest
      else prune_object x :: pruneListElems rest
end

/-! ### Serialization: json.dumps with its default separators -/

/-- Fuel-indexed decimal digits of a natural number; natDump supplies
enough fuel for the recursion on n / 10 to complete. -/
def natDigsAux : Nat → Nat → List Char
  | 0, _ => []
  | fuel + 1, n =>
      if n < 10 then [Char.ofNat ('0'.toNat + n)]
      else natDigsAux fuel (n / 10) ++ [Char.ofNat ('0'.toNat + n % 10)]

/-- Decimal digits of a natural number, most significant first. -/
def natDump (n : Nat) : List Char :=
  natDigsAux (n + 1) n

/-- Python str() of an integer. -/
def intDump (n : Int) : List Char :=
  if n < 0 then '-' :: natDump (-n).toNat else natDump n.toNat

/-- Lowercase hexadecimal digit. -/
def hexDig (d : Nat) : Char :=
  if d < 10 then Char.ofNat ('0'.toNat + d) else Char.ofNat ('a'.toNat + (d - 10))

/-- Four lowercase hexadecimal digits, as in the %04x of the json
encoder. -/
def hex4 (n : Nat) : List Char :=
  [hexDig (n / 4096 % 16), hexDig (n / 256 % 16), hexDig (n / 16 % 16), hexDig (n % 16)]

/-- Escaping of one character by json.dumps with its default
ensure_ascii=True: the seven short escapes, backslash-u escapes for the
other control and non-ASCII characters (with surrogate pairs beyond the
basic multilingual plane), and printable ASCII unchanged. -/
def escapeChar (c : Char) : List Char :=
  if c = '"' then ['\\', '"']
  else if c = '\\' then ['\\', '\\']
  else if c = '\x08' then ['\\', 'b']
  else if c = '\x09' then ['\\', 't']
  else if c = '\x0a' then ['\\', 'n']
  else if c = '\x0c' then ['\\', 'f']
  else if c = '\x0d' then ['\\', 'r']
  else if c.toNat < 0x20 ∨ 0x7e < c.toNat then
    if c.toNat < 0x10000 then '\\' :: 'u' :: hex4 c.toNat
    else
      let v := c.toNat - 0x10000
      '\\' :: 'u' :: hex4 (0xd800 + v / 0x400) ++ '\\' :: 'u' :: hex4 (0xdc00 + v % 0x400)
  else [c]

/-- Escaping of a character list. -/
def escapeList : List Char → List Char
  | [] => []
  | c :: rest => escapeChar c ++ escapeList rest

/-- json.dumps of a string: a double-quoted escaped body. -/
def dumpsStr (s : String) : List Char :=
  '"' :: escapeList s.data ++ ['"']

mutual
/-- json.dumps(t) with the default separators (a comma-space between
items, a colon-space between a key and its value), as the character
list of the produced text. -/
def dumps (t : Tree) : List Char :=
  match t with
  | .null => "null".data
  | .bool true => "true".data
  | .bool false => "false".data
  | .int n => intDump n
  | .str s => dumpsStr s
  | .list xs => '[' :: dumpsElems xs ++ [']']
  | .dict kvs => '\x7b' :: dumpsMembers kvs ++ ['\x7d']

/-- Comma-space separated serializations of sequence elements. -/
def dumpsElems : List Tree → List Char
  | [] => []
  | x :: rest =>
      match rest with
      | [] => dumps x
      | _ => dumps x ++ ',' :: ' ' :: dumpsElems rest

/-- Comma-space separated serializations of mapping entries, each a
serialized key, a colon-space, and a serialized value. -/
def dumpsMembers : List (String × Tree) → List Char
  | [] => []
  | (k, v) :: rest =>
      match rest with
      | [] => dumpsStr k ++ ':' :: ' ' :: dumps v
      | _ => (dumpsStr k ++ ':' :: ' ' :: dumps v) ++ ',' :: ' ' :: dumpsMembers rest
end

/-! ### Fixed-point driver: DOMPruner.run_passes -/

/-- Loop body of run_passes: with fuel counting the remaining loop
iterations allowed by max_passes, snapshot the current tree, apply one
prune pass, stop without incrementing the counter when the serialized
forms agree, and otherwise continue with the counter incremented. -/
def runAux : Tree → Nat → Nat → Tree × Nat
  | current, passes, 0 => (current, passes)
  | current, passes, fuel + 1 =>
      let next := prune_object current
      if dumps current = dumps next then (next, passes)
      else runAux next (passes + 1) fuel

/-- DOMPruner.run_passes(data, max_passes): iterate prune_object until
the serialized output of a pass equals its input or max_passes passes
have run, returning the final tree and the counter. -/
def run_passes (data : Tree) (maxPasses : Nat) : Tree × Nat :=
  runAux data 0 maxPasses

/-- Modelled from the spec: the number of passes actually executed over
the tree during a run, each application of prune_object to the whole
tree counting as one executed pass.  This measuring mirror of runAux is
what the spec sentence about the returned pass count refers to; the
source returns its own counter instead. -/
def passesExecutedAux : Tree → Nat → Nat
  | _, 0 => 0
  | current, fuel + 1 =>
      let next := prune_object current
      if dumps current = dumps next then 1
      else 1 + passesExecutedAux next fuel

/-- Modelled from the spec: passes actually executed by
run_passes(data, maxPasses). -/
def passesExecuted (data : Tree) (maxPasses : Nat) : Nat :=
  passesExecutedAux data maxPasses

/-! ### A decoding device for proving dumps injective

The convergence test of run_passes compares serialized text, so the
facts below recover a tree from its serialization, establishing that
serialized equality is structural equality.  The parser exists only for
these proofs; the source has no corresponding code. -/

mutual
/-- Structural size of a tree, used as parser fuel. -/
def sizeT : Tree → Nat
  | .null => 1
  | .bool _ => 1
  | .int _ => 1
  | .str _ => 1
  | .list xs => 2 + sizeL xs
  | .dict kvs => 2 + sizeD kvs

/-- Structural size of a tree list. -/
def sizeL : List Tree → Nat
  | [] => 0
  | x :: rest => 1 + sizeT x + sizeL rest

/-- Structural size of an entry list. -/
def sizeD : List (String × Tree) → Nat
  | [] => 0
  | (_, v) :: rest => 1 + sizeT v + sizeD rest
end

/-- Value of a decimal digit string, most significant first. -/
def digitsVal (cs : List Char) : Nat :=
  cs.foldl (fun a c => 10 * a + (c.toNat - '0'.toNat)) 0

/-- Value of one lowercase hexadecimal digit. -/
def hexVal (c : Char) : Nat :=
  if c.isDigit then c.toNat - '0'.toNat else c.toNat - 'a'.toNat + 10

/-- Value of four hexadecimal digits. -/
def decode4 (a b c d : Char) : Nat :=
  ((hexVal a * 16 + hexVal b) * 16 + hexVal c) * 16 + hexVal d

/-- Read a nonempty run of decimal digits. -/
def parseNat (cs : List Char) : Option (Nat × List Char) :=
  let ds := cs.takeWhile Char.isDigit
  if ds.isEmpty then none else some (digitsVal ds, cs.drop ds.length)

/-- Read an escaped string body up to its closing quote, undoing
escapeChar. -/
def parseStrBody : List Char → Option (List Char × List Char)
  | [] => none
  | '"' :: rest => some ([], rest)
  | '\\' :: esc =>
      match esc with
      | 'u' :: h1 :: h2 :: h3 :: h4 :: rest =>
          let h := decode4 h1 h2 h3 h4
          if 0xd800 ≤ h ∧ h < 0xdc00 then
            match rest with
            | '\\' :: 'u' :: l1 :: l2 :: l3 :: l4 :: rest2 =>
                let l := decode4 l1 l2 l3 l4
                if 0xdc00 ≤ l ∧ l < 0xe000 then
                  (parseStrBody rest2).map fun p =>
                    (Char.ofNat (0x10000 + (h - 0xd800) * 0x400 + (l - 0xdc00)) :: p.1, p.2)
                else none
            | _ => none
          else if 0xdc00 ≤ h ∧ h < 0xe000 then none
          else (parseStrBody rest).map fun p => (Char.ofNat h :: p.1, p.2)
      | e :: rest =>
          match (if e = '"' then some '"'
                 else if e = '\\' then some '\\'
                 else if e = 'b' then some '\x08'
                 else if e = 't' then some '\x09'
                 else if e = 'n' then some '\x0a'
                 else if e = 'f' then some '\x0c'
                 else if e = 'r' then some '\x0d'
                 else none : Option Char) with
          | some d => (parseStrBody rest).map fun p => (d :: p.1, p.2)
          | none => none
      | [] => none
  | c :: rest => (parseStrBody rest).map fun p => (c :: p.1, p.2)

/-- Expect a fixed literal continuation. -/
def dropLit (lit : String) (cs : List Char) : Option (List Char) :=
  if cs.take lit.data.length = lit.data then some (cs.drop lit.data.length) else none

mutual
/-- Read one serialized tree. -/
def parseVal : Nat → List Char → Option (Tree × List Char)
  | 0, _ => none
  | fuel + 1, cs =>
      match cs with
      | [] => none
      | c :: r =>
          if c = 'n' then (dropLit "ull" r).map fun r2 => (.null, r2)
          else if c = 't' then (dropLit "rue" r).map fun r2 => (.bool true, r2)
          else if c = 'f' then (dropLit "alse" r).map fun r2 => (.bool false, r2)
          else if c = '"' then (parseStrBody r).map fun p => (.str (String.mk p.1), p.2)
          else if c = '[' then (parseElems fuel r).map fun p => (.list p.1, p.2)
          else if c = '\x7b' then (parseMembers fuel r).map fun p => (.dict p.1, p.2)
          else if c = '-' then (parseNat r).map fun p => (.int (-(p.1 : Int)), p.2)
          else if c.isDigit then (parseNat (c :: r)).map fun p => (.int (p.1 : Int), p.2)
          else none

/-- Read the elements of a serialized sequence, through the closing
bracket. -/
def parseElems : Nat → List Char → Option (List Tree × List Char)
  | 0, _ => none
  | fuel + 1, cs =>
      match cs with
      | [] => none
      | c :: r =>
          if c = ']' then some ([], r)
          else
            (parseVal fuel (c :: r)).bind fun p =>
              (parseElemsRest fuel p.2).map fun q => (p.1 :: q.1, q.2)

/-- Read the remaining comma-separated elements of a serialized
sequence. -/
def parseElemsRest : Nat → List Char → Option (List Tree × List Char)
  | 0, _ => none
  | fuel + 1, cs =>
      match cs with
      | [] => none
      | c :: r =>
          if c = ']' then some ([], r)
          else if c = ',' then
            match r with
            | ' ' :: r2 =>
                (parseVal fuel r2).bind fun p =>
                  (parseElemsRest fuel p.2).map fun q => (p.1 :: q.1, q.2)
            | _ => none
          else none

/-- Read the entries of a serialized mapping, through the closing
brace. -/
def parseMembers : Nat → List Char → Option (List (String × Tree) × List Char)
  | 0, _ => none
  | fuel + 1, cs =>
      match cs with
      | [] => none
      | c :: r =>
          if c = '\x7d' then some ([], r)
          else if c = '"' then
            (parseStrBody r).bind fun kp =>
              match kp.2 with
              | ':' :: ' ' :: r2 =>
                  (parseVal fuel r2).bind fun p =>
                    (parseMembersRest fuel p.2).map fun q =>
                      ((String.mk kp.1, p.1) :: q.1, q.2)
              | _ => none
          else none

/-- Read the remaining comma-separated entries of a serialized
mapping. -/
def parseMembersRest : Nat → List Char → Option (List (String × Tree) × List Char)
  | 0, _ => none
  | fuel + 1, cs =>
      match cs with
      | [] => none
      | c :: r =>
          if c = '\x7d' then some ([], r)
          else if c = ',' then
            match r with
            | ' ' :: '"' :: r2 =>
                (parseStrBody r2).bind fun kp =>
                  match kp.2 with
                  | ':' :: ' ' :: r3 =>
                      (parseVal fuel r3).bind fun p =>
                        (parseMembersRest fuel p.2).map fun q =>
                          ((String.mk kp.1, p.1) :: q.1, q.2)
                  | _ => none
            | _ => none
          else none
end

/-! ### Basic facts for the decoding proofs -/

theorem char_valid (c : Char) :
    c.toNat < 0xd800 ∨ (0xe000 ≤ c.toNat ∧ c.toNat < 0x110000) := by
  rcases c.valid with h | ⟨h1, h2⟩
  · left; exact h
  · right; exact ⟨h1, h2⟩

theorem char_toNat_ofNat {n : Nat} (h : n.isValidChar) : (Char.ofNat n).toNat = n := by
  simp [Char.ofNat, h, Char.ofNatAux, Char.toNat, UInt32.toNat]

theorem char_ofNat_toNat (c : Char) : Char.ofNat c.toNat = c := by
  apply Char.eq_of_val_eq
  have h : c.toNat.isValidChar := c.valid
  simp [Char.ofNat, h, Char.ofNatAux]
  apply UInt32.eq_of_toBitVec_eq
  apply BitVec.eq_of_toNat_eq
  simp [Char.toNat, UInt32.toNat]

theorem string_mk_data (s : String) : String.mk s.data = s := by
  cases s
  rfl

theorem sizeT_pos (t : Tree) : 1 ≤ sizeT t := by
  cases t <;> simp [sizeT] <;> omega

/-- Continuations a serialized integer may be followed by: empty, or
not starting with a digit. -/
def goodRest : List Char → Prop
  | [] => True
  | c :: _ => c.isDigit = false

theorem char_ofNat_digit_isDigit (m : Nat) (h : m < 10) :
    (Char.ofNat (48 + m)).isDigit = true := by
  interval_cases m <;> decide

theorem char_ofNat_digit_toNat (m : Nat) (h : m < 10) :
    (Char.ofNat (48 + m)).toNat = 48 + m := by
  apply char_toNat_ofNat
  left
  omega

theorem natDigsAux_spec :
    ∀ f n, n < f →
      natDigsAux f n ≠ [] ∧ (∀ c ∈ natDigsAux f n, c.isDigit = true) ∧
        digitsVal (natDigsAux f n) = n := by
  intro f
  induction f with
  | zero => intro n h; omega
  | succ f ih =>
      intro n h
      have h48 : '0'.toNat = 48 := by decide
      by_cases h10 : n < 10
      · refine ⟨by simp [natDigsAux, h10], ?_, ?_⟩
        · intro c hc
          simp [natDigsAux, h10] at hc
          subst hc
          exact char_ofNat_digit_isDigit n h10
        · simp [natDigsAux, h10, digitsVal, h48]
          rw [char_ofNat_digit_toNat n h10]
          omega
      · have hlt : n / 10 < f := by
          have h1 : n / 10 < n := Nat.div_lt_self (by omega) (by omega)
          omega
        obtain ⟨hne, hdig, hval⟩ := ih (n / 10) hlt
        have hm : n % 10 < 10 := Nat.mod_lt _ (by omega)
        refine ⟨by simp [natDigsAux, h10], ?_, ?_⟩
        · intro c hc
          simp [natDigsAux, h10, h48] at hc
          rcases hc with hc | hc
          · exact hdig c hc
          · subst hc
            exact char_ofNat_digit_isDigit _ hm
        · simp [natDigsAux, h10, digitsVal, List.foldl_append, h48]
          have hv2 : digitsVal (natDigsAux f (n / 10)) = n / 10 := hval
          simp [digitsVal, h48] at hv2
          rw [hv2, char_ofNat_digit_toNat _ hm]
          omega

theorem natDump_spec (n : Nat) :
    natDump n ≠ [] ∧ (∀ c ∈ natDump n, c.isDigit = true) ∧ digitsVal (natDump n) = n :=
  natDigsAux_spec (n + 1) n (Nat.lt_succ_self n)

theorem takeWhile_all_append {p : Char → Bool} :
    ∀ (ds rest : List Char), (∀ c ∈ ds, p c = true) →
      (∀ c rest2, rest = c :: rest2 → p c = false) →
      (ds ++ rest).takeWhile p = ds := by
  intro ds
  induction ds with
  | nil =>
      intro rest _ hr
      cases rest with
      | nil => rfl
      | cons c r2 => simp [List.takeWhile, hr c r2 rfl]
  | cons d ds ih =>
      intro rest hall hr
      simp [List.takeWhile, hall d (by simp)]
      exact ih rest (fun c hc => hall c (by simp [hc])) hr

theorem parseNat_natDump (n : Nat) (rest : List Char) (h : goodRest rest) :
    parseNat (natDump n ++ rest) = some (n, rest) := by
  obtain ⟨hne, hdig, hval⟩ := natDump_spec n
  have htw : (natDump n ++ rest).takeWhile Char.isDigit = natDump n := by
    apply takeWhile_all_append _ _ hdig
    intro c rest2 he
    subst he
    exact h
  simp [parseNat, htw, hne, hval, List.drop_left]

theorem hexVal_hexDig (d : Nat) (h : d < 16) : hexVal (hexDig d) = d := by
  interval_cases d <;> decide

theorem decode4_hex4 (n : Nat) (h : n < 65536) :
    decode4 (hexDig (n / 4096 % 16)) (hexDig (n / 256 % 16)) (hexDig (n / 16 % 16))
      (hexDig (n % 16)) = n := by
  unfold decode4
  rw [hexVal_hexDig _ (by omega), hexVal_hexDig _ (by omega),
    hexVal_hexDig _ (by omega), hexVal_hexDig _ (by omega)]
  omega

/-! ### Roundtrip: the parser recovers a tree from its serialization -/

theorem parseStrBody_escape :
    ∀ (s rest : List Char),
      parseStrBody (escapeList s ++ '"' :: rest) = some (s, rest) := by
  intro s
  induction s with
  | nil => intro rest; simp [escapeList, parseStrBody]
  | cons c cs ih =>
      intro rest
      by_cases h1 : c = '"'
      · subst h1; simp [escapeList, escapeChar, parseStrBody, ih]
      by_cases h2 : c = '\\'
      · subst h2; simp [escapeList, escapeChar, parseStrBody, ih]
      by_cases h3 : c = '\x08'
      · subst h3; simp [escapeList, escapeChar, parseStrBody, ih]
      by_cases h4 : c = '\x09'
      · subst h4; simp [escapeList, escapeChar, parseStrBody, ih]
      by_cases h5 : c = '\x0a'
      · subst h5; simp [escapeList, escapeChar, parseStrBody, ih]
      by_cases h6 : c = '\x0c'
      · subst h6; simp [escapeList, escapeChar, parseStrBody, ih]
      by_cases h7 : c = '\x0d'
      · subst h7; simp [escapeList, escapeChar, parseStrBody, ih]
      by_cases h8 : c.toNat < 0x20 ∨ 0x7e < c.toNat
      · by_cases h9 : c.toNat < 0x10000
        · have hd4 : decode4 (hexDig (c.toNat / 4096 % 16)) (hexDig (c.toNat / 256 % 16))
              (hexDig (c.toNat / 16 % 16)) (hexDig (c.toNat % 16)) = c.toNat :=
            decode4_hex4 _ h9
          have hs1 : ¬(0xd800 ≤ c.toNat ∧ c.toNat < 0xdc00) := by
            rcases char_valid c with hv | hv <;> omega
          have hs2 : ¬(0xdc00 ≤ c.toNat ∧ c.toNat < 0xe000) := by
            rcases char_valid c with hv | hv <;> omega
          simp only [escapeList, escapeChar, h1, h2, h3, h4, h5, h6, h7,
            if_false, if_true, hex4]
          simp only [if_neg h1, if_neg h2, if_neg h3, if_neg h4, if_neg h5, if_neg h6,
            if_neg h7, if_pos h8, if_pos h9]
          rw [parseStrBody.eq_def]
          simp [hd4, hs1, hs2, ih, char_ofNat_toNat]
        · have hval : c.toNat < 0x110000 := by
            rcases char_valid c with hv | hv <;> omega
          have hhi : 0xd800 + (c.toNat - 0x10000) / 1024 < 65536 := by omega
          have hlo : 0xdc00 + (c.toNat - 0x10000) % 1024 < 65536 := by
            have := Nat.mod_lt (c.toNat - 0x10000) (y := 1024) (by omega)
            omega
          have hd4hi : decode4 (hexDig ((0xd800 + (c.toNat - 0x10000) / 1024) / 4096 % 16))
              (hexDig ((0xd800 + (c.toNat - 0x10000) / 1024) / 256 % 16))
              (hexDig ((0xd800 + (c.toNat - 0x10000) / 1024) / 16 % 16))
              (hexDig ((0xd800 + (c.toNat - 0x10000) / 1024) % 16))
              = 0xd800 + (c.toNat - 0x10000) / 1024 :=
            decode4_hex4 _ hhi
          have hd4lo : decode4 (hexDig ((0xdc00 + (c.toNat - 0x10000) % 1024) / 4096 % 16))
              (hexDig ((0xdc00 + (c.toNat - 0x10000) % 1024) / 256 % 16))
              (hexDig ((0xdc00 + (c.toNat - 0x10000) % 1024) / 16 % 16))
              (hexDig ((0xdc00 + (c.toNat - 0x10000) % 1024) % 16))
              = 0xdc00 + (c.toNat - 0x10000) % 1024 :=
            decode4_hex4 _ hlo
          have hrange1 : 0xd800 ≤ 0xd800 + (c.toNat - 0x10000) / 1024 ∧
              0xd800 + (c.toNat - 0x10000) / 1024 < 0xdc00 := by
            constructor
            · omega
            · have : (c.toNat - 0x10000) / 1024 < 1024 := by omega
              omega
          have hrange2 : 0xdc00 ≤ 0xdc00 + (c.toNat - 0x10000) % 1024 ∧
              0xdc00 + (c.toNat - 0x10000) % 1024 < 0xe000 := by
            have := Nat.mod_lt (c.toNat - 0x10000) (y := 1024) (by omega)
            omega
          have hcomb : 0x10000 + (0xd800 + (c.toNat - 0x10000) / 1024 - 0xd800) * 1024 +
              (0xdc00 + (c.toNat - 0x10000) % 1024 - 0xdc00) = c.toNat := by
            have h2' := Nat.div_add_mod (c.toNat - 0x10000) 1024
            omega
          simp only [escapeList, escapeChar]
          simp only [if_neg h1, if_neg h2, if_neg h3, if_neg h4, if_neg h5, if_neg h6,
            if_neg h7, if_pos h8, if_neg h9, hex4]
          have harg : 65536 + (c.toNat - 65536) / 1024 * 1024 + (c.toNat - 65536) % 1024
              = c.toNat := by
            have h2b := Nat.div_add_mod (c.toNat - 65536) 1024
            omega
          rw [parseStrBody.eq_def]
          simp [hd4hi, hd4lo, hrange1, hrange2, ih, harg, char_ofNat_toNat]
      · simp only [escapeList, escapeChar]
        simp only [if_neg h1, if_neg h2, if_neg h3, if_neg h4, if_neg h5, if_neg h6,
          if_neg h7, if_neg h8]
        simp [parseStrBody, h1, h2, ih]


/-- Serialized continuation of a sequence after its first element. -/
def dct (xs : List Tree) : List Char :=
  match xs with
  | [] => []
  | _ => ',' :: ' ' :: dumpsElems xs

/-- Serialized continuation of a mapping after its first entry. -/
def dmt (kvs : List (String × Tree)) : List Char :=
  match kvs with
  | [] => []
  | _ => ',' :: ' ' :: dumpsMembers kvs

theorem dumpsElems_cons (x : Tree) (xs : List Tree) :
    dumpsElems (x :: xs) = dumps x ++ dct xs := by
  cases xs <;> simp [dumpsElems, dct]

theorem dct_cons (x : Tree) (xs : List Tree) :
    dct (x :: xs) = ',' :: ' ' :: (dumps x ++ dct xs) := by
  simp [dct, dumpsElems_cons]

theorem dumpsMembers_cons (k : String) (v : Tree) (kvs : List (String × Tree)) :
    dumpsMembers ((k, v) :: kvs) = dumpsStr k ++ ':' :: ' ' :: (dumps v ++ dmt kvs) := by
  cases kvs <;> simp [dumpsMembers, dmt]

theorem dmt_cons (k : String) (v : Tree) (kvs : List (String × Tree)) :
    dmt ((k, v) :: kvs) = ',' :: ' ' :: (dumpsStr k ++ ':' :: ' ' :: (dumps v ++ dmt kvs)) := by
  simp [dmt, dumpsMembers_cons]

theorem goodRest_dct (xs : List Tree) (tail : List Char) :
    goodRest (dct xs ++ ']' :: tail) := by
  cases xs <;> simp [dct, goodRest]

theorem goodRest_dmt (kvs : List (String × Tree)) (tail : List Char) :
    goodRest (dmt kvs ++ '\x7d' :: tail) := by
  cases kvs <;> simp [dmt, goodRest]

theorem dumps_head (t : Tree) :
    ∃ c r, dumps t = c :: r ∧ c ≠ ']' ∧ c ≠ '\x7d' := by
  cases t with
  | null => exact ⟨'n', _, rfl, by decide, by decide⟩
  | bool b =>
      cases b
      · exact ⟨'f', _, rfl, by decide, by decide⟩
      · exact ⟨'t', _, rfl, by decide, by decide⟩
  | int n =>
      by_cases hn : n < 0
      · exact ⟨'-', natDump (-n).toNat, by simp [dumps, intDump, hn], by decide, by decide⟩
      · obtain ⟨hne, hdig, _⟩ := natDump_spec n.toNat
        obtain ⟨c, r, hcr⟩ : ∃ c r, natDump n.toNat = c :: r := by
          cases h : natDump n.toNat with
          | nil => exact absurd h hne
          | cons c r => exact ⟨c, r, rfl⟩
        have hd : c.isDigit = true := hdig c (by simp [hcr])
        refine ⟨c, r, ?_, ?_, ?_⟩
        · simp [dumps, intDump, hn, hcr]
        · intro he; subst he; simp at hd
        · intro he; subst he; simp at hd
  | str s => exact ⟨'"', _, rfl, by decide, by decide⟩
  | list xs => exact ⟨'[', _, rfl, by decide, by decide⟩
  | dict kvs => exact ⟨'\x7b', _, rfl, by decide, by decide⟩

theorem parseVal_digit (f : Nat) (c : Char) (r : List Char) (h : c.isDigit = true) :
    parseVal (f + 1) (c :: r) = (parseNat (c :: r)).map fun p => (.int (p.1 : Int), p.2) := by
  have hn : c ≠ 'n' := by intro he; subst he; simp at h
  have ht : c ≠ 't' := by intro he; subst he; simp at h
  have hf : c ≠ 'f' := by intro he; subst he; simp at h
  have hq : c ≠ '"' := by intro he; subst he; simp at h
  have hb : c ≠ '[' := by intro he; subst he; simp at h
  have hc : c ≠ '\x7b' := by intro he; subst he; simp at h
  have hm : c ≠ '-' := by intro he; subst he; simp at h
  simp [parseVal, hn, ht, hf, hq, hb, hc, hm, h]

theorem dropLit_exact (lit : String) (rest : List Char) :
    dropLit lit (lit.data ++ rest) = some rest := by
  simp [dropLit, List.take_left, List.drop_left]


mutual
theorem parseVal_dumps :
    ∀ (t : Tree) (fuel : Nat) (rest : List Char), sizeT t ≤ fuel → goodRest rest →
      parseVal fuel (dumps t ++ rest) = some (t, rest) := by
  intro t fuel rest hsz hgr
  cases fuel with
  | zero => exact absurd (le_trans (sizeT_pos t) hsz) (by omega)
  | succ f =>
      cases t with
      | null =>
          have he : dumps Tree.null ++ rest = 'n' :: ("ull".data ++ rest) := rfl
          rw [he]
          simp [parseVal]
          exact dropLit_exact "ull" rest
      | bool b =>
          cases b
          · have he : dumps (Tree.bool false) ++ rest = 'f' :: ("alse".data ++ rest) := rfl
            rw [he]
            simp [parseVal]
            exact dropLit_exact "alse" rest
          · have he : dumps (Tree.bool true) ++ rest = 't' :: ("rue".data ++ rest) := rfl
            rw [he]
            simp [parseVal]
            exact dropLit_exact "rue" rest
      | int n =>
          by_cases hn : n < 0
          · have he : dumps (Tree.int n) ++ rest = '-' :: (natDump (-n).toNat ++ rest) := by
              simp [dumps, intDump, hn]
            rw [he]
            have hpn := parseNat_natDump (-n).toNat rest hgr
            simp [parseVal, hpn]
            omega
          · obtain ⟨hne, hdig, _⟩ := natDump_spec n.toNat
            obtain ⟨c, r, hcr⟩ : ∃ c r, natDump n.toNat = c :: r := by
              cases h : natDump n.toNat with
              | nil => exact absurd h hne
              | cons c r => exact ⟨c, r, rfl⟩
            have hd : c.isDigit = true := hdig c (by simp [hcr])
            have he : dumps (Tree.int n) ++ rest = c :: (r ++ rest) := by
              simp [dumps, intDump, hn, hcr]
            rw [he]
            rw [parseVal_digit f c (r ++ rest) hd]
            have hpn := parseNat_natDump n.toNat rest hgr
            rw [hcr] at hpn
            simp only [List.cons_append] at hpn
            rw [hpn]
            simp
            omega
      | str s =>
          have he : dumps (Tree.str s) ++ rest = '"' :: (escapeList s.data ++ '"' :: rest) := by
            simp [dumps, dumpsStr]
          rw [he]
          simp [parseVal, parseStrBody_escape, string_mk_data]
      | list xs =>
          have he : dumps (Tree.list xs) ++ rest = '[' :: (dumpsElems xs ++ ']' :: rest) := by
            simp [dumps]
          rw [he]
          have hsz2 : sizeL xs + 1 ≤ f := by
            simp [sizeT] at hsz
            omega
          simp [parseVal, parseElems_dumps xs f rest hsz2]
      | dict kvs =>
          have he : dumps (Tree.dict kvs) ++ rest
              = '\x7b' :: (dumpsMembers kvs ++ '\x7d' :: rest) := by
            simp [dumps]
          rw [he]
          have hsz2 : sizeD kvs + 1 ≤ f := by
            simp [sizeT] at hsz
            omega
          simp [parseVal, parseMembers_dumps kvs f rest hsz2]

theorem parseElems_dumps :
    ∀ (xs : List Tree) (fuel : Nat) (rest : List Char), sizeL xs + 1 ≤ fuel →
      parseElems fuel (dumpsElems xs ++ ']' :: rest) = some (xs, rest) := by
  intro xs fuel rest hsz
  cases fuel with
  | zero => omega
  | succ f =>
      cases xs with
      | nil => simp [dumpsElems, parseElems]
      | cons x xs2 =>
          obtain ⟨c, dr, hcd, hc1, _⟩ := dumps_head x
          have he : dumpsElems (x :: xs2) ++ ']' :: rest
              = c :: (dr ++ (dct xs2 ++ ']' :: rest)) := by
            rw [dumpsElems_cons, hcd]
            simp
          rw [he]
          have hx : sizeT x ≤ f := by
            simp [sizeL] at hsz
            omega
          have hv : parseVal f (dumps x ++ (dct xs2 ++ ']' :: rest))
              = some (x, dct xs2 ++ ']' :: rest) :=
            parseVal_dumps x f _ hx (goodRest_dct xs2 rest)
          rw [hcd] at hv
          simp only [List.cons_append] at hv
          have hr : parseElemsRest f (dct xs2 ++ ']' :: rest) = some (xs2, rest) := by
            apply parseElemsRest_dumps
            simp [sizeL] at hsz
            omega
          simp [parseElems, hc1, hv, hr]

theorem parseElemsRest_dumps :
    ∀ (xs : List Tree) (fuel : Nat) (rest : List Char), sizeL xs + 1 ≤ fuel →
      parseElemsRest fuel (dct xs ++ ']' :: rest) = some (xs, rest) := by
  intro xs fuel rest hsz
  cases fuel with
  | zero => omega
  | succ f =>
      cases xs with
      | nil => simp [dct, parseElemsRest]
      | cons x xs2 =>
          rw [dct_cons]
          have hx : sizeT x ≤ f := by
            simp [sizeL] at hsz
            omega
          have hv : parseVal f (dumps x ++ (dct xs2 ++ ']' :: rest))
              = some (x, dct xs2 ++ ']' :: rest) :=
            parseVal_dumps x f _ hx (goodRest_dct xs2 rest)
          have hr : parseElemsRest f (dct xs2 ++ ']' :: rest) = some (xs2, rest) := by
            apply parseElemsRest_dumps
            simp [sizeL] at hsz
            omega
          simp [parseElemsRest, hv, hr]

theorem parseMembers_dumps :
    ∀ (kvs : List (String × Tree)) (fuel : Nat) (rest : List Char), sizeD kvs + 1 ≤ fuel →
      parseMembers fuel (dumpsMembers kvs ++ '\x7d' :: rest) = some (kvs, rest) := by
  intro kvs fuel rest hsz
  cases fuel with
  | zero => omega
  | succ f =>
      cases kvs with
      | nil => simp [dumpsMembers, parseMembers]
      | cons kv kvs2 =>
          obtain ⟨k, v⟩ := kv
          rw [dumpsMembers_cons]
          have he : (dumpsStr k ++ ':' :: ' ' :: (dumps v ++ dmt kvs2)) ++ '\x7d' :: rest
              = '"' :: (escapeList k.data ++ '"' ::
                  (':' :: ' ' :: (dumps v ++ (dmt kvs2 ++ '\x7d' :: rest)))) := by
            simp [dumpsStr]
          rw [he]
          have hx : sizeT v ≤ f := by
            simp [sizeD] at hsz
            omega
          have hv : parseVal f (dumps v ++ (dmt kvs2 ++ '\x7d' :: rest))
              = some (v, dmt kvs2 ++ '\x7d' :: rest) :=
            parseVal_dumps v f _ hx (goodRest_dmt kvs2 rest)
          have hr : parseMembersRest f (dmt kvs2 ++ '\x7d' :: rest) = some (kvs2, rest) := by
            apply parseMembersRest_dumps
            simp [sizeD] at hsz
            omega
          simp [parseMembers, parseStrBody_escape, hv, hr, string_mk_data]

theorem parseMembersRest_dumps :
    ∀ (kvs : List (String × Tree)) (fuel : Nat) (rest : List Char), sizeD kvs + 1 ≤ fuel →
      parseMembersRest fuel (dmt kvs ++ '\x7d' :: rest) = some (kvs, rest) := by
  intro kvs fuel rest hsz
  cases fuel with
  | zero => omega
  | succ f =>
      cases kvs with
      | nil => simp [dmt, parseMembersRest]
      | cons kv kvs2 =>
          obtain ⟨k, v⟩ := kv
          rw [dmt_cons]
          have he : (',' :: ' ' :: (dumpsStr k ++ ':' :: ' ' :: (dumps v ++ dmt kvs2)))
                ++ '\x7d' :: rest
              = ',' :: ' ' :: '"' :: (escapeList k.data ++ '"' ::
                  (':' :: ' ' :: (dumps v ++ (dmt kvs2 ++ '\x7d' :: rest)))) := by
            simp [dumpsStr]
          rw [he]
          have hx : sizeT v ≤ f := by
            simp [sizeD] at hsz
            omega
          have hv : parseVal f (dumps v ++ (dmt kvs2 ++ '\x7d' :: rest))
              = some (v, dmt kvs2 ++ '\x7d' :: rest) :=
            parseVal_dumps v f _ hx (goodRest_dmt kvs2 rest)
          have hr : parseMembersRest f (dmt kvs2 ++ '\x7d' :: rest) = some (kvs2, rest) := by
            apply parseMembersRest_dumps
            simp [sizeD] at hsz
            omega
          simp [parseMembersRest, parseStrBody_escape, hv, hr, string_mk_data]
end

theorem dumps_injective {a b : Tree} (h : dumps a = dumps b) : a = b := by
  have ha := parseVal_dumps a (sizeT a + sizeT b) [] (by omega) trivial
  have hb := parseVal_dumps b (sizeT a + sizeT b) [] (by omega) trivial
  rw [List.append_nil] at ha hb
  rw [h] at ha
  rw [ha] at hb
  simp at hb
  exact hb


/-! ### Loop facts for run_passes -/

theorem runAux_spec :
    ∀ (fuel : Nat) (current : Tree) (passes : Nat),
      ∃ k, (runAux current passes fuel).2 = passes + k ∧
        ((k = fuel ∧ passesExecutedAux current fuel = fuel) ∨
          (k < fuel ∧ passesExecutedAux current fuel = k + 1)) := by
  intro fuel
  induction fuel with
  | zero => intro current passes; exact ⟨0, by simp [runAux], Or.inl (by simp [passesExecutedAux])⟩
  | succ f ih =>
      intro current passes
      by_cases hc : dumps current = dumps (prune_object current)
      · refine ⟨0, ?_, Or.inr ⟨by omega, ?_⟩⟩
        · simp [runAux, hc]
        · simp [passesExecutedAux, hc]
      · obtain ⟨k, hk, hor⟩ := ih (prune_object current) (passes + 1)
        refine ⟨k + 1, ?_, ?_⟩
        · simp [runAux, hc, hk]
          omega
        · rcases hor with ⟨h1, h2⟩ | ⟨h1, h2⟩
          · exact Or.inl ⟨by omega, by simp [passesExecutedAux, hc, h2]; omega⟩
          · exact Or.inr ⟨by omega, by simp [passesExecutedAux, hc, h2]; omega⟩

theorem runAux_fixed :
    ∀ (fuel : Nat) (current : Tree) (passes : Nat) (t : Tree) (n : Nat),
      runAux current passes fuel = (t, n) → n < passes + fuel →
      prune_object t = t := by
  intro fuel
  induction fuel with
  | zero =>
      intro current passes t n h hn
      simp [runAux] at h
      omega
  | succ f ih =>
      intro current passes t n h hn
      by_cases hc : dumps current = dumps (prune_object current)
      · simp [runAux, hc] at h
        obtain ⟨ht, _⟩ := h
        have hcc : current = prune_object current := dumps_injective hc
        rw [← ht, ← hcc, ← hcc]
      · simp [runAux, hc] at h
        exact ih (prune_object current) (passes + 1) t n h (by omega)

theorem run_passes_count_le (data : Tree) (maxPasses : Nat) :
    (run_passes data maxPasses).2 ≤ maxPasses ∧ passesExecuted data maxPasses ≤ maxPasses := by
  obtain ⟨k, hk, hor⟩ := runAux_spec maxPasses data 0
  unfold run_passes passesExecuted
  rcases hor with ⟨h1, h2⟩ | ⟨h1, h2⟩ <;> omega


/-! ### Node count: the structural measure a pass never increases -/

mutual
/-- Number of nodes of a tree: each scalar, sequence, and mapping
counts as one node, plus the nodes of the children. -/
def nodeCount : Tree → Nat
  | .null => 1
  | .bool _ => 1
  | .int _ => 1
  | .str _ => 1
  | .list xs => 1 + nodeCountL xs
  | .dict kvs => 1 + nodeCountD kvs

/-- Total node count of sequence elements. -/
def nodeCountL : List Tree → Nat
  | [] => 0
  | x :: rest => nodeCount x + nodeCountL rest

/-- Total node count of mapping entry values. -/
def nodeCountD : List (String × Tree) → Nat
  | [] => 0
  | (_, v) :: rest => nodeCount v + nodeCountD rest
end

mutual
theorem nodeCount_prune_le (t : Tree) : nodeCount (prune_object t) ≤ nodeCount t := by
  cases t with
  | null =>
      simp only [prune_object]
      repeat' split
      all_goals simp [nodeCount]
  | bool b =>
      simp only [prune_object]
      repeat' split
      all_goals simp [nodeCount]
  | int n =>
      simp only [prune_object]
      repeat' split
      all_goals simp [nodeCount]
  | str s =>
      simp only [prune_object]
      repeat' split
      all_goals simp [nodeCount]
  | list xs =>
      have hL := nodeCountL_prune_le xs
      simp only [prune_object]
      repeat' split
      all_goals try simp [nodeCount]
      all_goals omega
  | dict kvs =>
      have hD := nodeCountD_prune_le kvs
      simp only [prune_object]
      repeat' split
      all_goals try simp [nodeCount]
      all_goals omega

theorem nodeCountL_prune_le (xs : List Tree) : nodeCountL (pruneListElems xs) ≤ nodeCountL xs := by
  cases xs with
  | nil => simp [pruneListElems]
  | cons x rest =>
      have h1 := nodeCount_prune_le x
      have h2 := nodeCountL_prune_le rest
      simp only [pruneListElems]
      repeat' split
      all_goals try simp [nodeCountL]
      all_goals omega

theorem nodeCountD_prune_le (kvs : List (String × Tree)) :
    nodeCountD (pruneDictEntries kvs) ≤ nodeCountD kvs := by
  cases kvs with
  | nil => simp [pruneDictEntries]
  | cons kv rest =>
      obtain ⟨k, v⟩ := kv
      have h1 := nodeCount_prune_le v
      have h2 := nodeCountD_prune_le rest
      simp only [pruneDictEntries]
      repeat' split
      all_goals try simp [nodeCountD]
      all_goals omega
end


/-! ### The rule table as data, and the constructor of DOMPruner

PRUNE_PATTERNS and CSS_PATTERNS are dictionaries of heterogeneous
literal entries (pattern strings, plain strings, literal values);
entries are embedded as Tree values.  DOMPruner.__init__ aliases the
caller-supplied dictionary and then assigns the css_values and css_keys
items into it, so the constructor is embedded as the function from the
supplied dictionary to its state after construction. -/

/-- The feature_flag_keys category of PRUNE_PATTERNS. -/
def feature_flag_keys : List String :=
  ["console_supported", "claudeai_supported", "phone_verification_supported",
   "stripe_address_supported", "mm_pdf"]

/-- The technical_keys category of PRUNE_PATTERNS. -/
def technical_keys : List String :=
  ["rule_id", "group", "value", "name", "props", "type", "index"]

/-- The react_keys pattern strings of PRUNE_PATTERNS. -/
def react_keys : List String :=
  ["^__react", "^_owner$", "^_payload$", "^_response$", "^_chunks$",
   "^_stringDecoder$", "^\\[object\\s.*\\]$"]

/-- The literal regex strings of CSS_PATTERNS values. -/
def css_values_sources : List String :=
  ["^(mx|my|px|py|m|p|gap)-[0-9\\.]+$", "^flex(-[a-z]+)*$", "^grid(-[a-z]+)*$",
   "^(block|inline|hidden)$", "^(mb|mt|ml|mr)-[0-9\\.]+$", "^space-(x|y)-[0-9\\.]+$",
   "^gap-[0-9\\.]+$"]

/-- PRUNE_PATTERNS, the module-level default rule table. -/
def PRUNE_PATTERNS : List (String × List Tree) :=
  [("react_keys", react_keys.map Tree.str),
   ("feature_flag_keys", feature_flag_keys.map Tree.str),
   ("technical_keys", technical_keys.map Tree.str),
   ("base64_looking_keys", [.str "^[A-Za-z0-9+/]\x7b20,\x7d=\x7b0,2\x7d$"]),
   ("style_classes",
     [.str "^(flex|grid|text-|bg-|p-|m-|gap-|border-|rounded-|shadow-|transition-|overflow-)",
      .str "(sm|md|lg|xl|2xl)$"]),
   ("html_attributes",
     [.dict [("height", .str "0")], .dict [("width", .str "0")],
      .dict [("display", .str "none")], .dict [("visibility", .str "hidden")],
      .str "noscript", .str "iframe"]),
   ("technical_metadata",
     [.str "undefined", .str "null", .str "[object Object]", .str "_owner",
      .str "__reactFiber", .str "__reactProps", .str "console_supported",
      .str "claudeai_supported", .str "phone_verification_supported",
      .str "stripe_address_supported"]),
   ("empty_technical",
     [.dict [("props", .dict [])], .dict [("_chunks", .dict [])],
      .dict [("_stringDecoder", .dict [])]]),
   ("technical_values",
     [.null, .list [], .dict [], .str "", .bool false, .str "undefined", .str "null",
      .str "[object Object]", .bool true, .int 0, .str "0", .dict []]),
   ("react_values",
     [.str "^__react", .str "^\\[object\\s.*\\]$", .str "^_[a-zA-Z]+"]),
   ("base64_values", [.str "^[A-Za-z0-9+/]\x7b20,\x7d=\x7b0,2\x7d$"])]

/-- Python item assignment on a dictionary embedded as an ordered entry
list: replace the value of an existing key in place, else append. -/
def pyDictSet (d : List (String × List Tree)) (k : String) (v : List Tree) :
    List (String × List Tree) :=
  if d.any (fun kv => kv.1 = k) then d.map fun kv => if kv.1 = k then (k, v) else kv
  else d ++ [(k, v)]

/-- Python dictionary lookup on the embedded entry list. -/
def pyDictGet (d : List (String × List Tree)) (k : String) : Option (List Tree) :=
  (d.find? fun kv => kv.1 = k).map Prod.snd

/-- DOMPruner.__init__(patterns): the state of the caller-supplied
patterns dictionary after construction.  The constructor stores the
dictionary by reference and assigns the css_values and css_keys items
into it; compile_regex builds a separate compiled table and does not
touch it further, and should_prune, prune_object and run_passes never
write to it. -/
def DOMPruner_init (patterns : List (String × List Tree)) : List (String × List Tree) :=
  pyDictSet (pyDictSet patterns "css_values" (css_values_sources.map Tree.str))
    "css_keys" (css_keys.map Tree.str)

theorem pyDictGet_map_set_ne (d : List (String × List Tree)) (k k2 : String)
    (v : List Tree) (h : ¬k2 = k) :
    pyDictGet (d.map fun kv => if kv.1 = k then (k, v) else kv) k2 = pyDictGet d k2 := by
  induction d with
  | nil => rfl
  | cons kv d ih =>
      obtain ⟨k1, v1⟩ := kv
      by_cases h1 : k1 = k
      · subst h1
        have h2 : ¬k1 = k2 := fun he => h he.symm
        simp [pyDictGet, List.find?, h2] at ih ⊢
        exact ih
      · by_cases h2 : k1 = k2
        · subst h2
          simp [pyDictGet, List.find?, h1]
        · simp [pyDictGet, List.find?, h1, h2] at ih ⊢
          exact ih

theorem pyDictGet_map_set_eq (d : List (String × List Tree)) (k : String) (v : List Tree)
    (h : d.any (fun kv => kv.1 = k) = true) :
    pyDictGet (d.map fun kv => if kv.1 = k then (k, v) else kv) k = some v := by
  induction d with
  | nil => simp at h
  | cons kv d ih =>
      obtain ⟨k1, v1⟩ := kv
      by_cases h1 : k1 = k
      · subst h1
        simp [pyDictGet, List.find?]
      · have h2 : d.any (fun kv => kv.1 = k) = true := by
          cases hb : d.any (fun kv => kv.1 = k)
          · rw [List.any_cons, hb] at h
            simp [h1] at h
          · rfl
        have ih2 := ih h2
        simp [pyDictGet, List.find?, h1] at ih2 ⊢
        exact ih2

theorem pyDictGet_append_single (d : List (String × List Tree)) (k k2 : String)
    (v : List Tree) :
    pyDictGet (d ++ [(k, v)]) k2 =
      match pyDictGet d k2 with
      | some w => some w
      | none => if k2 = k then some v else none := by
  induction d with
  | nil =>
      by_cases h : k = k2
      · subst h; simp [pyDictGet, List.find?]
      · have h2 : ¬k2 = k := fun he => h he.symm
        simp [pyDictGet, List.find?, h, h2]
  | cons kv d ih =>
      obtain ⟨k1, v1⟩ := kv
      by_cases h1 : k1 = k2
      · subst h1; simp [pyDictGet, List.find?]
      · simp [pyDictGet, List.find?, h1] at ih ⊢
        exact ih

theorem pyDictGet_set (d : List (String × List Tree)) (k k2 : String) (v : List Tree) :
    pyDictGet (pyDictSet d k v) k2 = if k2 = k then some v else pyDictGet d k2 := by
  unfold pyDictSet
  by_cases hin : d.any (fun kv => kv.1 = k) = true
  · simp only [hin, if_true]
    by_cases h2 : k2 = k
    · subst h2; simp [pyDictGet_map_set_eq d k2 v hin]
    · simp [pyDictGet_map_set_ne d k k2 v h2, h2]
  · simp only [Bool.not_eq_true] at hin
    simp only [hin, Bool.false_eq_true, if_false]
    rw [pyDictGet_append_single]
    by_cases h2 : k2 = k
    · subst h2
      have hg : pyDictGet d k2 = none := by
        unfold pyDictGet
        cases hf : d.find? fun kv => kv.1 = k2 with
        | none => rfl
        | some kv =>
            have hp := List.find?_some hf
            have hm := List.mem_of_find?_eq_some hf
            have hany : d.any (fun kv => kv.1 = k2) = true :=
              List.any_eq_true.mpr ⟨kv, hm, hp⟩
            rw [hin] at hany
            cases hany
      simp [hg]
    · cases hg : pyDictGet d k2 <;> simp [h2]


/-! ### Facts about should_prune and prune_object used by the claims -/

theorem should_prune_some_ne (v : Tree) (k : String) (h : ¬k = "nodeName") :
    should_prune v (some k) = should_prune v none := by
  simp [should_prune, h]

theorem prune_object_str (s : String) :
    prune_object (.str s) = if should_prune (.str s) none then .null else .str s := by
  simp [prune_object]

/-- The nodeName protection of should_prune acts only in the collapse
check of the mapping branch: in a two-entry mapping whose second entry
survives, the nodeName entry is kept exactly when its value survives
recursive pruning on its own. -/
theorem prune_nodeName_pair (v : Tree) (k : String) (s : String)
    (hk1 : ¬k ∈ REMOVE_KEYS) (hk2 : ¬k ∈ css_keys)
    (hk3 : ¬k = "nodeName") (hs : should_prune (.str s) none = false) :
    prune_object (.dict [("nodeName", v), (k, .str s)]) =
      if prune_object v = .null then .dict [(k, .str s)]
      else .dict [("nodeName", prune_object v), (k, .str s)] := by
  have hr : ¬("nodeName" : String) ∈ REMOVE_KEYS := by decide
  have hcs : ¬("nodeName" : String) ∈ css_keys := by decide
  have hps : prune_object (.str s) = .str s := by
    rw [prune_object_str, hs]
    simp
  have hsk : should_prune (.str s) (some k) = false := by
    rw [should_prune_some_ne _ _ hk3, hs]
  have hentries : pruneDictEntries [("nodeName", v), (k, .str s)] =
      if prune_object v = .null then [(k, .str s)]
      else [("nodeName", prune_object v), (k, .str s)] := by
    by_cases hpv : prune_object v = .null
    · simp [pruneDictEntries, hr, hcs, hk1, hk2, hpv, hps]
    · simp [pruneDictEntries, hr, hcs, hk1, hk2, hpv, hps]
  by_cases hpv : prune_object v = .null
  · simp only [prune_object, hentries, hpv]
    simp [hsk]
  · have hsn : should_prune (prune_object v) (some "nodeName") = false := by
      simp [should_prune]
    simp only [prune_object, hentries, hpv]
    simp [hsk, hsn]

/-- The sequence branch of prune_object: the surviving output is exactly
the pre-recursion filter mapped through prune_object, and at least one
output element does not satisfy should_prune (otherwise the whole
sequence would have collapsed); absent recursive results are kept as the
null sentinel inside the output. -/
theorem prune_list_result (xs ys : List Tree) (h : prune_object (.list xs) = .list ys) :
    ys = pruneListElems xs ∧ ∃ e ∈ ys, should_prune e none = false := by
  simp only [prune_object] at h
  by_cases hc : pruneListElems xs = [] ∨
      (pruneListElems xs).all (fun item => should_prune item none) = true
  · rw [if_pos hc] at h
    cases h
  · rw [if_neg hc] at h
    injection h with h2
    subst h2
    push_neg at hc
    obtain ⟨hne, hnall⟩ := hc
    refine ⟨rfl, ?_⟩
    have hnot := List.all_eq_true.not.mp hnall
    push_neg at hnot
    obtain ⟨e, he, hef⟩ := hnot
    exact ⟨e, he, by simpa using hef⟩

/-- Whitespace-only nonempty strings: the trimmed form is empty. -/
theorem pyStrip_all_space (s : String) (h : ∀ c ∈ s.data, pyIsSpace c = true) :
    pyStrip s = "" := by
  have h1 : s.data.dropWhile pyIsSpace = [] := List.dropWhile_eq_nil_iff.mpr h
  simp [pyStrip, pyStripL, h1]

theorem should_prune_whitespace (s : String) (key : Option String) (h1 : ¬s = "")
    (h2 : ∀ c ∈ s.data, pyIsSpace c = true) :
    should_prune (.str s) key = false := by
  have hstrip : pyStrip s = "" := pyStrip_all_space s h2
  by_cases hk : key = some "nodeName"
  · simp [should_prune, hk]
  · simp only [should_prune, hk, if_false]
    simp [h1, hstrip]
    decide

/-- For a string whose trimmed form still contains a space and is not
the literal DOM text value containing a space, should_prune is exactly
the all-tokens-match test of the css value patterns. -/
theorem should_prune_multitoken (s : String)
    (hsp : (pyStrip s).data.contains ' ' = true)
    (hobj : ¬pyStrip s = "[object Object]") :
    should_prune (.str s) none = (pySplit (pyStrip s)).all css_values_match := by
  have hne : ¬s = "" := by
    intro he
    subst he
    simp [pyStrip, pyStripL] at hsp
  have hmem : ∀ m ∈ DOM_TEXT_VALUES, ¬pyStrip s = m := by
    intro m hm he
    have hsp2 : m.data.contains ' ' = true := by rw [← he]; exact hsp
    fin_cases hm <;> first
      | exact hobj he
      | simp at hsp2
  have hnotin : ¬pyStrip s ∈ DOM_TEXT_VALUES := fun hin => hmem _ hin rfl
  have hspm : ' ' ∈ (pyStrip s).data := by simpa using hsp
  have hlow : ∀ (w : String), w.data.contains ' ' = false → ¬pyLower (pyStrip s) = w := by
    intro w hw he
    have hsm : ' ' ∈ (pyStrip s).data := by
      simpa using hsp
    have hsm2 : ' ' ∈ (pyLower (pyStrip s)).data := by
      simp only [pyLower]
      have hmm := List.mem_map_of_mem pyLowerChar hsm
      simpa using hmm
    rw [he] at hsm2
    simp at hw
    exact hw hsm2
  have hnull : ¬pyLower (pyStrip s) = "null" := hlow _ (by decide)
  have hundef : ¬pyLower (pyStrip s) = "undefined" := hlow _ (by decide)
  have hne2 : ¬(Tree.str s = Tree.null ∨ Tree.str s = Tree.list [] ∨
      Tree.str s = Tree.dict [] ∨ Tree.str s = Tree.str "") := by
    simp [hne]
  simp only [should_prune]
  rw [if_neg (by simp), if_neg hne2]
  simp [hnotin, hnull, hundef, hspm]


/-! ### Category membership tests the spec lists but the engine never
consults, embedded for the record from their pattern sources -/

/-- Matching of the react_keys pattern string caret-underscore-underscore-react
under re.match: the key starts with the marker. -/
def react_key_match (t : List Char) : Bool :=
  t.take 7 == "__react".data

/-- Character class of the base64 pattern: letters, digits, plus,
slash. -/
def isBase64Char (c : Char) : Bool :=
  ('A' ≤ c ∧ c ≤ 'Z') || ('a' ≤ c ∧ c ≤ 'z') || c.isDigit || c = '+' || c = '/'

/-- Matching of the base64_values pattern: at least twenty base64
characters followed by up to two equals signs, spanning the whole
string. -/
def base64_value_match (t : List Char) : Bool :=
  let core := t.takeWhile isBase64Char
  20 ≤ core.length && (t.drop core.length).length ≤ 2 &&
    (t.drop core.length).all (fun c => c = '=')

/-- A mapping whose keys come from the react, feature-flag and technical
categories keeps all of them in one pass whenever its values survive:
none of those categories is consulted by should_prune or
prune_object. -/
theorem prune_keeps_unconsulted_keys (s : String)
    (hs : should_prune (.str s) none = false) :
    prune_object (.dict [("__reactFiber", .str s), ("console_supported", .str s),
        ("rule_id", .str s)])
      = .dict [("__reactFiber", .str s), ("console_supported", .str s),
        ("rule_id", .str s)] := by
  have hps : prune_object (.str s) = .str s := by
    rw [prune_object_str, hs]
    simp
  have h1 : should_prune (.str s) (some "__reactFiber") = false := by
    rw [should_prune_some_ne _ _ (by decide), hs]
  have h2 : should_prune (.str s) (some "console_supported") = false := by
    rw [should_prune_some_ne _ _ (by decide), hs]
  have hrk : ¬("__reactFiber" : String) ∈ REMOVE_KEYS := by decide
  have hck : ¬("__reactFiber" : String) ∈ css_keys := by decide
  have hrk2 : ¬("console_supported" : String) ∈ REMOVE_KEYS := by decide
  have hck2 : ¬("console_supported" : String) ∈ css_keys := by decide
  have hrk3 : ¬("rule_id" : String) ∈ REMOVE_KEYS := by decide
  have hck3 : ¬("rule_id" : String) ∈ css_keys := by decide
  have hentries : pruneDictEntries [("__reactFiber", Tree.str s),
      ("console_supported", Tree.str s), ("rule_id", Tree.str s)]
      = [("__reactFiber", Tree.str s), ("console_supported", Tree.str s),
         ("rule_id", Tree.str s)] := by
    by_cases hnull : (Tree.str s) = Tree.null
    · cases hnull
    simp [pruneDictEntries, hrk, hck, hrk2, hck2, hrk3, hck3, hps]
  simp only [prune_object, hentries]
  simp [h1]

/-- The counter of run_passes counts only the passes that changed the
serialized tree: the converging pass is executed but not counted, and
when the ceiling stops the run every executed pass was counted. -/
theorem run_passes_pass_count (data : Tree) (mp : Nat) (t : Tree) (n : Nat)
    (h : run_passes data mp = (t, n)) :
    (n < mp ∧ passesExecuted data mp = n + 1) ∨ (n = mp ∧ passesExecuted data mp = mp) := by
  obtain ⟨k, hk, hor⟩ := runAux_spec mp data 0
  have hn : n = k := by
    have h2 : (run_passes data mp).2 = n := by rw [h]
    unfold run_passes at h2
    omega
  subst hn
  unfold passesExecuted
  rcases hor with ⟨ha, hb⟩ | ⟨ha, hb⟩
  · right
    omega
  · left
    omega

/-- Construction mutates the supplied patterns dictionary only at the
two css categories: every other category reads back unchanged, and the
two css categories read back as the module CSS_PATTERNS entries. -/
theorem DOMPruner_init_get (p : List (String × List Tree)) (k : String)
    (h1 : ¬k = "css_values") (h2 : ¬k = "css_keys") :
    pyDictGet (DOMPruner_init p) k = pyDictGet p k ∧
    pyDictGet (DOMPruner_init p) "css_values" = some (css_values_sources.map Tree.str) ∧
    pyDictGet (DOMPruner_init p) "css_keys" = some (css_keys.map Tree.str) := by
  unfold DOMPruner_init
  refine ⟨?_, ?_, ?_⟩
  · rw [pyDictGet_set, if_neg h2, pyDictGet_set, if_neg h1]
  · rw [pyDictGet_set, if_neg (by decide), pyDictGet_set, if_pos rfl]
  · rw [pyDictGet_set, if_pos rfl]


/-! ### The claims -/

/-- Claim C1, counterexample: a single prune pass removes the nodeName
entry from the mapping with keys nodeName and a, because the nodeName
value null prunes to absent on its own; the claim asserts the pair is
never removed regardless of its value. -/
theorem C1_counterexample :
    prune_object (.dict [("nodeName", .null), ("a", .str "x")]) = .dict [("a", .str "x")] := by
  decide

/-- Claim C1, amended: in a mapping holding nodeName and a second
surviving entry, a single pass keeps the nodeName pair exactly when
recursively pruning its value does not yield the absent outcome; values
such as null, booleans, numbers, empty containers and prunable strings
are removed together with the key, since the value recursion never sees
the key.  The key-based protection acts only in the collapse check. -/
theorem C1_theorem (v : Tree) (k : String) (s : String)
    (hk1 : ¬k ∈ REMOVE_KEYS) (hk2 : ¬k ∈ css_keys) (hk3 : ¬k = "nodeName")
    (hs : should_prune (.str s) none = false) :
    prune_object (.dict [("nodeName", v), (k, .str s)]) =
      if prune_object v = .null then .dict [(k, .str s)]
      else .dict [("nodeName", prune_object v), (k, .str s)] :=
  prune_nodeName_pair v k s hk1 hk2 hk3 hs

/-- Claim C1, witness of the amended theorem at a boolean nodeName
value and the surviving entry b. -/
theorem C1_witness :
    (¬("b" : String) ∈ REMOVE_KEYS) ∧ (¬("b" : String) ∈ css_keys) ∧
    (¬("b" : String) = "nodeName") ∧ should_prune (.str "y") none = false ∧
    prune_object (.dict [("nodeName", .bool true), ("b", .str "y")]) =
      (if prune_object (.bool true) = .null then .dict [("b", .str "y")]
       else .dict [("nodeName", prune_object (.bool true)), ("b", .str "y")]) :=
  ⟨by decide, by decide, by decide, by decide,
    C1_theorem (.bool true) "b" "y" (by decide) (by decide) (by decide) (by decide)⟩

/-- Claim C2, counterexample: one prune pass of a sequence keeps the
absent sentinel produced by the sole-nodeName mapping as a null element
of the output, although the claim asserts absent elements are dropped. -/
theorem C2_counterexample :
    prune_object (.list [.str "keep", .dict [("nodeName", .str "div")]])
      = .list [.str "keep", .null] ∧ Tree.null ∈ [Tree.str "keep", Tree.null] := by
  decide

/-- Claim C2, amended: a sequence pass drops exactly the elements
satisfying should_prune before recursion and maps the rest through
prune_object, keeping elements whose recursion yields the absent
outcome as null sentinels; whenever a list survives, at least one of
its elements does not satisfy should_prune. -/
theorem C2_theorem (xs ys : List Tree) (h : prune_object (.list xs) = .list ys) :
    ys = pruneListElems xs ∧ ∃ e ∈ ys, should_prune e none = false :=
  prune_list_result xs ys h

/-- Claim C2, witness of the amended theorem on a two-element list, one
element of which prunes to the absent sentinel. -/
theorem C2_witness :
    prune_object (.list [.str "stay", .dict [("nodeName", .str "p")]])
        = .list [.str "stay", .null] ∧
    ([Tree.str "stay", Tree.null]
        = pruneListElems [.str "stay", .dict [("nodeName", .str "p")]] ∧
      ∃ e ∈ [Tree.str "stay", Tree.null], should_prune e none = false) :=
  ⟨by decide, C2_theorem [.str "stay", .dict [("nodeName", .str "p")]]
    [Tree.str "stay", Tree.null] (by decide)⟩

/-- Claim C3, counterexample: on a mapping that is already a fixed
point, run_passes executes one pass (the converging one) but returns a
pass count of zero, so the returned integer is not the number of passes
actually executed. -/
theorem C3_counterexample :
    ¬(run_passes (.dict [("a", .str "keep")]) 10).2
      = passesExecuted (.dict [("a", .str "keep")]) 10 := by
  decide

/-- Claim C3, amended: the integer returned by run_passes counts only
the executed passes that changed the serialized tree; when the run
stops by convergence the converging pass is executed but not counted,
so the count returned is the executed count minus one, and when the
ceiling stops the run the returned count equals max_passes, the number
executed. -/
theorem C3_theorem (data : Tree) (mp : Nat) (t : Tree) (n : Nat)
    (h : run_passes data mp = (t, n)) :
    (n < mp ∧ passesExecuted data mp = n + 1) ∨ (n = mp ∧ passesExecuted data mp = mp) :=
  run_passes_pass_count data mp t n h

/-- Claim C3, witness of the amended theorem on an immediately
converging run: zero counted, one executed. -/
theorem C3_witness :
    run_passes (.dict [("b", .str "stay")]) 10 = (.dict [("b", .str "stay")], 0) ∧
    (((0 : Nat) < 10 ∧ passesExecuted (.dict [("b", .str "stay")]) 10 = 0 + 1) ∨
      ((0 : Nat) = 10 ∧ passesExecuted (.dict [("b", .str "stay")]) 10 = 10)) :=
  ⟨by decide, C3_theorem (.dict [("b", .str "stay")]) 10 (.dict [("b", .str "stay")]) 0
    (by decide)⟩

/-- Claim C4, counterexample: the first pass of run_passes on the empty
mapping yields the absent sentinel, whose serialization null is longer
than the two-character serialization of the input, so the serialized
size of the tree grows across that executed pass. -/
theorem C4_counterexample :
    run_passes (.dict []) 10 = (.null, 1) ∧ prune_object (.dict []) = .null ∧
    (dumps (.dict [])).length = 2 ∧ (dumps Tree.null).length = 4 ∧
    ¬(dumps (prune_object (.dict []))).length ≤ (dumps (.dict [])).length := by
  decide

/-- Claim C4, amended: a pass never adds nodes: the node count of the
tree after a prune pass is at most the node count before it.  The
serialized character size, however, can grow when a collapsed subtree
is replaced by the absent sentinel whose serialization null is longer
than the subtree text, as the counterexample shows. -/
theorem C4_theorem (t : Tree) : nodeCount (prune_object t) ≤ nodeCount t :=
  nodeCount_prune_le t

/-- Claim C5, counterexample: a single pass leaves unchanged a mapping
whose keys match the react marker pattern, belong to the feature-flag
set and the technical set, and whose value matches the base64 pattern:
none of these categories is consulted, although the claim asserts each
is removed by a single pass. -/
theorem C5_counterexample :
    react_key_match "__reactFiber".data = true ∧
    "console_supported" ∈ feature_flag_keys ∧
    "rule_id" ∈ technical_keys ∧
    base64_value_match "QUJDREVGRkdIQUJDREVGRkdI".data = true ∧
    prune_object (.dict [("__reactFiber", .str "kept"), ("console_supported", .str "kept"),
        ("rule_id", .str "kept"), ("data", .str "QUJDREVGRkdIQUJDREVGRkdI")])
      = .dict [("__reactFiber", .str "kept"), ("console_supported", .str "kept"),
        ("rule_id", .str "kept"), ("data", .str "QUJDREVGRkdIQUJDREVGRkdI")] := by
  decide

/-- Claim C5, amended: a pass consults only the nodeName guard,
emptiness, the DOM text literals, the null and undefined strings, the
css value patterns on multi-token strings, booleans and numbers inside
should_prune, plus REMOVE_KEYS and css_keys inside prune_object; keys
of the react, feature-flag and technical categories survive a pass
whenever their values survive, the categories being compiled but never
read. -/
theorem C5_theorem (s : String) (hs : should_prune (.str s) none = false) :
    prune_object (.dict [("__reactFiber", .str s), ("console_supported", .str s),
        ("rule_id", .str s)])
      = .dict [("__reactFiber", .str s), ("console_supported", .str s),
        ("rule_id", .str s)] :=
  prune_keeps_unconsulted_keys s hs

/-- Claim C5, witness of the amended theorem at a surviving string
value. -/
theorem C5_witness :
    should_prune (.str "content") none = false ∧
    prune_object (.dict [("__reactFiber", .str "content"),
        ("console_supported", .str "content"), ("rule_id", .str "content")])
      = .dict [("__reactFiber", .str "content"), ("console_supported", .str "content"),
        ("rule_id", .str "content")] :=
  ⟨by decide, C5_theorem "content" (by decide)⟩

/-- Claim C6: when run_passes stops because two consecutive passes
produced identical serialized output, which is exactly a returned count
below max_passes, one more application of prune_object to the returned
tree returns it unchanged. -/
theorem C6_theorem (data : Tree) (mp : Nat) (t : Tree) (n : Nat)
    (h : run_passes data mp = (t, n)) (hn : n < mp) :
    prune_object t = t := by
  unfold run_passes at h
  exact runAux_fixed mp data 0 t n h (by omega)

/-- Claim C6, witness on a run converging at once with count zero below
the ceiling. -/
theorem C6_witness :
    run_passes (.dict [("c", .str "keep")]) 3 = (.dict [("c", .str "keep")], 0) ∧
    (0 : Nat) < 3 ∧
    prune_object (.dict [("c", .str "keep")]) = .dict [("c", .str "keep")] :=
  ⟨by decide, by decide,
    C6_theorem (.dict [("c", .str "keep")]) 3 (.dict [("c", .str "keep")]) 0
      (by decide) (by decide)⟩

/-- Claim C7, counterexample: the string containing a space whose
tokens match no css value pattern is nevertheless pruned, being one of
the DOM text literals, so a non-matching token does not guarantee the
string survives the pass unchanged. -/
theorem C7_counterexample :
    (pyStrip "[object Object]").data.contains ' ' = true ∧
    css_values_match "[object".data = false ∧
    should_prune (.str "[object Object]") none = true ∧
    prune_object (.str "[object Object]") = .null := by
  decide

/-- Claim C7, amended: for a string whose trimmed form contains a space
and is not the literal DOM text value containing a space, should_prune
holds exactly when every whitespace token matches a css value pattern,
and when some token fails the string survives the pass unchanged. -/
theorem C7_theorem (s : String) (hsp : (pyStrip s).data.contains ' ' = true)
    (hobj : ¬pyStrip s = "[object Object]") :
    should_prune (.str s) none = (pySplit (pyStrip s)).all css_values_match ∧
    ((pySplit (pyStrip s)).all css_values_match = false →
      prune_object (.str s) = .str s) := by
  have h := should_prune_multitoken s hsp hobj
  refine ⟨h, fun hf => ?_⟩
  rw [prune_object_str, h, hf]
  simp

/-- Claim C7, witness of the amended theorem on a two-token string with
one non-matching token. -/
theorem C7_witness :
    (pyStrip "flex hello").data.contains ' ' = true ∧
    (¬pyStrip "flex hello" = "[object Object]") ∧
    (should_prune (.str "flex hello") none
        = (pySplit (pyStrip "flex hello")).all css_values_match ∧
      ((pySplit (pyStrip "flex hello")).all css_values_match = false →
        prune_object (.str "flex hello") = .str "flex hello")) :=
  ⟨by decide, by decide, C7_theorem "flex hello" (by decide) (by decide)⟩

/-- Claim C8: for every tree and pass ceiling of at least one,
run_passes returns an ordinary pair whose pass count is at most the
ceiling, and the number of prune passes executed is also at most the
ceiling; the embedding is total, so reaching the ceiling is an ordinary
return and not an exception. -/
theorem C8_theorem (data : Tree) (mp : Nat) (_h : 1 ≤ mp) :
    (run_passes data mp).2 ≤ mp ∧ passesExecuted data mp ≤ mp :=
  run_passes_count_le data mp

/-- Claim C8, witness on a list needing two passes under a ceiling of
five. -/
theorem C8_witness :
    (1 : Nat) ≤ 5 ∧
    ((run_passes (.list [.list [.str "#text"], .str "w"]) 5).2 ≤ 5 ∧
      passesExecuted (.list [.list [.str "#text"], .str "w"]) 5 ≤ 5) :=
  ⟨by decide, C8_theorem (.list [.list [.str "#text"], .str "w"]) 5 (by decide)⟩

/-- Claim C9, counterexample: constructing the engine from a
caller-supplied patterns mapping mutates that mapping, adding the
css_values and css_keys categories to it. -/
theorem C9_counterexample :
    ¬DOMPruner_init [("react_keys", [Tree.str "^__react"])]
      = [("react_keys", [Tree.str "^__react"])] := by
  decide

/-- Claim C9, amended: construction mutates the supplied patterns
mapping exactly at the css_values and css_keys categories, overwriting
or appending them with the CSS_PATTERNS entries; every other category
reads back unchanged, and after construction no engine operation writes
to the mapping. -/
theorem C9_theorem (p : List (String × List Tree)) (k : String)
    (h1 : ¬k = "css_values") (h2 : ¬k = "css_keys") :
    pyDictGet (DOMPruner_init p) k = pyDictGet p k ∧
    pyDictGet (DOMPruner_init p) "css_values" = some (css_values_sources.map Tree.str) ∧
    pyDictGet (DOMPruner_init p) "css_keys" = some (css_keys.map Tree.str) :=
  DOMPruner_init_get p k h1 h2

/-- Claim C9, witness of the amended theorem on a one-category custom
table. -/
theorem C9_witness :
    (¬("react_keys" : String) = "css_values") ∧ (¬("react_keys" : String) = "css_keys") ∧
    (pyDictGet (DOMPruner_init [("react_keys", [Tree.str "^__react"])]) "react_keys"
        = pyDictGet [("react_keys", [Tree.str "^__react"])] "react_keys" ∧
      pyDictGet (DOMPruner_init [("react_keys", [Tree.str "^__react"])]) "css_values"
        = some (css_values_sources.map Tree.str) ∧
      pyDictGet (DOMPruner_init [("react_keys", [Tree.str "^__react"])]) "css_keys"
        = some (css_keys.map Tree.str)) :=
  ⟨by decide, by decide,
    C9_theorem [("react_keys", [Tree.str "^__react"])] "react_keys" (by decide) (by decide)⟩

/-- Claim C10: a nonempty string of whitespace characters is never
classified prunable, whatever the key, and survives a prune pass
unchanged, even though the exactly-empty string is always pruned and
the newline string is one of the DOM text literals: emptiness is
checked before trimming and membership is checked on the trimmed
string. -/
theorem C10_theorem (s : String) (key : Option String) (h1 : ¬s = "")
    (h2 : ∀ c ∈ s.data, pyIsSpace c = true) :
    should_prune (.str s) key = false ∧ prune_object (.str s) = .str s ∧
    should_prune (.str "") none = true ∧ "\n" ∈ DOM_TEXT_VALUES := by
  refine ⟨should_prune_whitespace s key h1 h2, ?_, by decide, by decide⟩
  rw [prune_object_str, should_prune_whitespace s none h1 h2]
  simp

/-- Claim C10, witness at the newline string with an arbitrary
non-nodeName key. -/
theorem C10_witness :
    (¬("\n" : String) = "") ∧ (∀ c ∈ ("\n" : String).data, pyIsSpace c = true) ∧
    (should_prune (.str "\n") (some "x") = false ∧ prune_object (.str "\n") = .str "\n" ∧
      should_prune (.str "") none = true ∧ "\n" ∈ DOM_TEXT_VALUES) :=
  ⟨by decide, by decide, C10_theorem "\n" (some "x") (by decide) (by decide)⟩

end DomPruner
